import Mathlib

/-!
Shallow embedding of the TCP decoder and per-stream RPC reassembler of
`packet/transport/tcp.py` (classes `Option` and `TCP`), together with a
model of the external byte-cursor (`packet/unpack.py`) and RPC decoder
(`packet/application/rpc.py`) interfaces, which are not part of the
sources and are modelled from the specification's collaborator
contracts.  Bytes are natural numbers below 256; Python integers are
`Int` where they can go negative and `Nat` where they cannot.
-/

set_option maxRecDepth 100000

/-- Big-endian 16-bit value of two bytes. -/
def be16 (a b : Nat) : Nat := 256 * a + b

/-- Big-endian 32-bit value of four bytes. -/
def be32 (a b c d : Nat) : Nat := 16777216 * a + 65536 * b + 256 * c + d

/-- Modelled from the spec: the capture driver's byte cursor
(`packet/unpack.py`, not under `src/`).  Per the collaborator contract it
supplies `read(n)`, `size()`, `tell()`, `seek(pos)`, `save_state()`,
`restore_state(id)`, `insert(bytes)` (logical prepend at the current
position) and `getbytes()` (remaining bytes without advancing); a
truncated read raises after exhausting the remaining bytes, closing
parsing at the malformed boundary, and save/restore span the composite
view produced by `insert`. -/
structure Unpack where
  data : List Nat
  pos : Nat
deriving Repr, DecidableEq

/-- Remaining byte count (`unpack.size()`), an `Int` as in Python. -/
def Unpack.size (u : Unpack) : Int := (u.data.length : Int) - u.pos

/-- The remaining bytes at the cursor. -/
def Unpack.remaining (u : Unpack) : List Nat := u.data.drop u.pos

/-- `unpack.getbytes()`: remaining bytes without advancing. -/
def Unpack.getbytes (u : Unpack) : List Nat := u.remaining

/-- Advance the cursor by `n` bytes. -/
def Unpack.consume (u : Unpack) (n : Nat) : Unpack := ⟨u.data, u.pos + n⟩

/-- `unpack.seek(p)`. -/
def Unpack.seekTo (u : Unpack) (p : Int) : Unpack := ⟨u.data, p.toNat⟩

/-- `unpack.insert(bs)`: logically prepend `bs` at the current position. -/
def Unpack.insert (u : Unpack) (bs : List Nat) : Unpack :=
  ⟨u.data.take u.pos ++ bs ++ u.data.drop u.pos, u.pos⟩

/-- Modelled from the spec: the RPC object surface used by `tcp.py`.
`size` is `rpc.fragment_hdr.size` (the record-marking body length),
`xid` and `rtype` are `rpc.xid` and `rpc.type` (0 = call), `lastFrag`
is the record mark's high bit. -/
structure RpcObj where
  size : Nat
  xid : Nat
  rtype : Nat
  lastFrag : Bool
deriving Repr, DecidableEq

/-- Modelled from the spec: the RPC wire decoder
(`packet/application/rpc.py`, not under `src/`).  Per the spec it reads
the 4-byte record mark (high bit = last fragment, low 31 bits = body
length) and yields a falsy value when the buffer is not a valid RPC
header; validity is modelled as having at least 12 bytes with the
message-type word (bytes 8..11) equal to 0 or 1. -/
def parseRPC : List Nat → Option RpcObj
  | b0 :: b1 :: b2 :: b3 :: b4 :: b5 :: b6 :: b7 :: b8 :: b9 :: b10 :: b11 :: _ =>
    let mark := be32 b0 b1 b2 b3
    let mtype := be32 b8 b9 b10 b11
    if mtype ≤ 1 then
      some ⟨mark % 2147483648, be32 b4 b5 b6 b7, mtype, decide (2147483648 ≤ mark)⟩
    else
      none
  | _ => none

/-- `RPC(pktt, proto=6)` on a cursor: on success the header decode
consumes the 4-byte record mark (the body is consumed later by
`decode_payload`); on failure the cursor is unchanged. -/
def parseRPCU (u : Unpack) : Option (RpcObj × Unpack) :=
  match parseRPC u.remaining with
  | some r => some (r, u.consume 4)
  | none => none

/-- Modelled from the spec: the stateless probe constructor
`RPC(pktt, proto=6, state=False)`, a read-only trial parse that may
also raise; the default probe never raises and returns the trial
parse. -/
def probeRPC : List Nat → Except Unit (Option RpcObj) :=
  fun bs => Except.ok (parseRPC bs)

/-- Body of a decoded TCP option, one constructor per recognized kind
of `Option.__init__` (`tcp.py` lines 57-90); `tsval` mirrors the state
where `self.tsval` was set but the `tsecr` read failed. -/
inductive OptBody where
  | nothing : OptBody
  | mss (v : Nat) : OptBody
  | wsopt (v : Nat) : OptBody
  | sack (blocks : List (Nat × Nat)) : OptBody
  | tsopt (tsval tsecr : Nat) : OptBody
  | tsval (v : Nat) : OptBody
  | data (bytes : List Nat) : OptBody
deriving Repr, DecidableEq

/-- A decoded TCP option (`Option` object): `kind` is `none` when even
the kind byte could not be read (`self.kind = None`). -/
structure OptionObj where
  kind : Option Nat
  body : OptBody
deriving Repr, DecidableEq

/-- Result of decoding a single option: the object, the rest of the
option buffer, and whether every read succeeded. -/
structure POut where
  opt : OptionObj
  rest : List Nat
  ok : Bool
deriving Repr, DecidableEq

/-- The SACK block loop of `Option.__init__`: read `n` blocks of two
32-bit edges each; a truncated edge read exhausts the remaining bytes
and stops the loop with the blocks read so far. -/
def readBlocks : Nat → List Nat → List (Nat × Nat) × List Nat × Bool
  | 0, bs => ([], bs, true)
  | n + 1, a :: b :: c :: d :: e :: f :: g :: h :: bs =>
    let (bl, rest, ok) := readBlocks n bs
    ((be32 a b c d, be32 e f g h) :: bl, rest, ok)
  | _ + 1, _ => ([], [], false)

/-- `Option.__init__` (`tcp.py` lines 57-90): read the kind byte; kinds
0 and 1 consume nothing further; other kinds read a length byte and,
when `length > 2`, dispatch on the kind.  Any truncated read raises,
is caught, and leaves the object with the fields read so far; the
failed read exhausts the remaining option bytes, so the enclosing loop
sees an empty buffer and parsing closes at the malformed boundary. -/
def parseOption : List Nat → POut
  | [] => ⟨⟨none, .nothing⟩, [], false⟩
  | k :: rest =>
    if k = 0 ∨ k = 1 then ⟨⟨some k, .nothing⟩, rest, true⟩
    else
      match rest with
      | [] => ⟨⟨some k, .nothing⟩, [], false⟩
      | len :: r2 =>
        if len ≤ 2 then ⟨⟨some k, .nothing⟩, r2, true⟩
        else if k = 2 then
          match r2 with
          | a :: b :: r3 => ⟨⟨some k, .mss (be16 a b)⟩, r3, true⟩
          | _ => ⟨⟨some k, .nothing⟩, [], false⟩
        else if k = 3 then
          match r2 with
          | a :: r3 => ⟨⟨some k, .wsopt a⟩, r3, true⟩
          | _ => ⟨⟨some k, .nothing⟩, [], false⟩
        else if k = 5 then
          let (bl, r3, ok) := readBlocks ((len - 2) / 8) r2
          ⟨⟨some k, .sack bl⟩, r3, ok⟩
        else if k = 8 then
          match r2 with
          | a :: b :: c :: d :: e :: f :: g :: h :: r3 =>
            ⟨⟨some k, .tsopt (be32 a b c d) (be32 e f g h)⟩, r3, true⟩
          | a :: b :: c :: d :: _ => ⟨⟨some k, .tsval (be32 a b c d)⟩, [], false⟩
          | _ => ⟨⟨some k, .nothing⟩, [], false⟩
        else
          if len - 2 ≤ r2.length then
            ⟨⟨some k, .data (r2.take (len - 2))⟩, r2.drop (len - 2), true⟩
          else ⟨⟨some k, .nothing⟩, [], false⟩

/-- The option loop of `TCP.__init__` (`tcp.py` lines 200-207) with
explicit fuel: while bytes remain, decode one option; kind 0 ends the
list, options with kind above 0 are appended, anything else is
skipped. -/
def parseOptionsAux : Nat → List Nat → List OptionObj
  | 0, _ => []
  | _ + 1, [] => []
  | fuel + 1, k :: tl =>
    let p := parseOption (k :: tl)
    match p.opt.kind with
    | some 0 => []
    | some (_ + 1) => p.opt :: parseOptionsAux fuel p.rest
    | none => parseOptionsAux fuel p.rest

/-- The option loop of `TCP.__init__` at its natural fuel. -/
def parseOptions (bs : List Nat) : List OptionObj := parseOptionsAux (bs.length + 1) bs

/-- The only failure of the segment decode: a truncated TCP header
(the 20-byte fixed read or the options read ran out of bytes). -/
inductive DecodeErr where
  | shortHeader : DecodeErr
deriving Repr, DecidableEq

/-- Decoded TCP header fields of `TCP.__init__`; `options` is `none`
when `header_size ≤ 20` (the attribute is never set). -/
structure TCPHdr where
  src_port : Nat
  dst_port : Nat
  seq_number : Nat
  ack_number : Nat
  hl : Nat
  header_size : Nat
  rawflags : Nat
  window_size : Nat
  checksum : Nat
  urgent_ptr : Nat
  options : Option (List OptionObj)
deriving Repr, DecidableEq

/-- Header portion of `TCP.__init__` (`tcp.py` lines 149-207): read 20
bytes big-endian as `!HHIIHHHH`, split the fifth field into the header
length (high 4 bits) and the 9-bit raw flags, and when
`header_size > 20` read `header_size - 20` bytes of options.  Returns
the header and the remaining payload bytes, or `shortHeader` when a
read is truncated. -/
def decodeTCP (buf : List Nat) : Except DecodeErr (TCPHdr × List Nat) :=
  if buf.length < 20 then .error .shortHeader
  else
    let b := fun i => buf.getD i 0
    let u4 := be16 (b 12) (b 13)
    let hl := u4 >>> 12
    let hs := 4 * hl
    let rest := buf.drop 20
    let hdr : Option (List OptionObj) → TCPHdr := fun opts =>
      ⟨be16 (b 0) (b 1), be16 (b 2) (b 3),
       be32 (b 4) (b 5) (b 6) (b 7), be32 (b 8) (b 9) (b 10) (b 11),
       hl, hs, u4 % 512, be16 (b 14) (b 15), be16 (b 16) (b 17),
       be16 (b 18) (b 19), opts⟩
    if 20 < hs then
      if hs - 20 ≤ rest.length then
        .ok (hdr (some (parseOptions (rest.take (hs - 20)))), rest.drop (hs - 20))
      else .error .shortHeader
    else .ok (hdr none, rest)

/-- Per-stream reassembly state (`pktt._tcp_stream_map[streamid]`,
`tcp.py` lines 172-178). -/
structure StreamState where
  msfrag : List Nat
  frag_off : Int
  last_seq : Int
  seq_wrap : Int
  seq_base : Nat
deriving Repr, DecidableEq

/-- The fresh state installed on first encounter of a stream key. -/
def initStream (seqn : Nat) : StreamState := ⟨[], 0, 0, 0, seqn⟩

/-- Side effects of one payload decode: dispatch to DNS or KRB5, the
RPC object attached at `pkt.rpc`, the xid removed from the correlation
map, whether the capture cursor was repositioned for re-entry
(`pktt.seek(pktt.boffset)`), and whether the next record straddled out
of this segment (the probe failed or declared more bytes than remain,
`tcp.py` lines 334-338, so the leftover was saved into `msfrag`). -/
structure DPEvents where
  dns : Bool := false
  krb : Bool := false
  rpc : Option RpcObj := none
  xidPop : Option Nat := none
  reenter : Bool := false
  straddled : Bool := false
deriving Repr, DecidableEq

/-- Tail of `TCP._decode_payload` after an RPC header was obtained
(`tcp.py` lines 301-344): `sid` is the saved restore point, `u` the
cursor just past the record mark, `size` the byte count saved at line
270 and `ldata` the bytes available for the record body.  The body
consumption of `rpc.decode_payload()` is modelled from the spec: it
consumes up to the declared body size and yields a payload object
exactly when the whole body was present. -/
def afterHeader (probe : List Nat → Except Unit (Option RpcObj)) (truncbytes : Int)
    (st : StreamState) (sid u : Unpack) (size ldata : Int) (r : RpcObj) :
    StreamState × DPEvents :=
  let rpcsize := r.size
  if truncbytes = 0 ∧ ldata < (rpcsize : Int) then
    ({ st with msfrag := st.msfrag ++ sid.getbytes }, {})
  else
    let st := { st with
      frag_off := if 0 < st.msfrag.length ∨ ldata = (rpcsize : Int) then 0 else st.frag_off,
      msfrag := [] }
    let ev : DPEvents := { rpc := some r, xidPop := if r.rtype ≠ 0 then some r.xid else none }
    let consumed := min rpcsize u.remaining.length
    let u := u.consume consumed
    let rpcload := consumed = rpcsize
    let rpcbytes := ldata - u.size
    if ¬rpcload ∧ rpcbytes ≠ (rpcsize : Int) then (st, ev)
    else if u.size ≠ 0 then
      let st := { st with frag_off := st.frag_off + (size - u.size) }
      let sid2 := u
      let ldata2 := u.size - 4
      let rpcHeader := match probe u.remaining with
        | .error _ => none
        | .ok v => v
      match rpcHeader with
      | none => ({ st with msfrag := st.msfrag ++ sid2.getbytes }, { ev with straddled := true })
      | some r2 =>
        if ldata2 < (r2.size : Int) then
          ({ st with msfrag := st.msfrag ++ sid2.getbytes }, { ev with straddled := true })
        else (st, { ev with reenter := true })
    else ({ st with frag_off := 0 }, ev)

/-- `TCP._decode_payload` (`tcp.py` lines 244-344), parameterized by
the stateless probe used at line 331.  The cursor starts at the
segment's payload. -/
def decodePayloadP (probe : List Nat → Except Unit (Option RpcObj))
    (src_port dst_port rawflags : Nat) (truncbytes : Int)
    (st : StreamState) (payload : List Nat) : StreamState × DPEvents :=
  if src_port = 53 ∨ dst_port = 53 then (st, { dns := true })
  else if src_port = 88 ∨ dst_port = 88 then (st, { krb := true })
  else
    let u0 : Unpack := ⟨payload, 0⟩
    let u1 := if 0 < st.frag_off ∧ st.msfrag.length = 0 then
        u0.seekTo ((u0.pos : Int) + st.frag_off)
      else u0
    let sid := u1
    let size := u1.size
    match (if 0 < st.msfrag.length then parseRPCU u1 else none) with
    | some (r, u2) =>
      let st1 : StreamState := { st with msfrag := [], frag_off := 0 }
      afterHeader probe truncbytes st1 sid u2 size (size - 4) r
    | none =>
      let st1 := if size = 0 ∧ 0 < st.msfrag.length ∧ rawflags ≠ 16 then
          { st with msfrag := [], frag_off := 0 }
        else st
      let u2 := if 0 < st1.msfrag.length then u1.insert st1.msfrag else u1
      let ldata := u2.size - 4
      match parseRPCU u2 with
      | none => (st1, {})
      | some (r, u3) => afterHeader probe truncbytes st1 sid u3 size ldata r

/-- `TCP._decode_payload` with the default probe. -/
def decodePayload (src_port dst_port rawflags : Nat) (truncbytes : Int)
    (st : StreamState) (payload : List Nat) : StreamState × DPEvents :=
  decodePayloadP probeRPC src_port dst_port rawflags truncbytes st payload

/-- Sequence normalization (`tcp.py` lines 189-194): relative seq is
`seq_number - seq_base + seq_wrap`; when the result fell below
`seq_wrap` the 32-bit number wrapped, so both advance by 2^32. -/
def normalizeSeq (st : StreamState) (seqn : Nat) : Int × StreamState :=
  let seq : Int := (seqn : Int) - st.seq_base + st.seq_wrap
  if seq < st.seq_wrap then (seq + 4294967296, { st with seq_wrap := st.seq_wrap + 4294967296 })
  else (seq, st)

/-- Outcome of one segment: its normalized relative seq, whether the
retransmission check dropped it before payload decoding, and the
payload-decode events. -/
structure SegResult where
  seq : Int
  dropped : Bool
  ev : DPEvents
deriving Repr, DecidableEq

/-- SYN handling of `TCP.__init__` (`tcp.py` lines 183-187): a SYN
rebases `seq_base` and realigns `last_seq` to the `seq_wrap` floor. -/
def synAdjust (st0 : StreamState) (h : TCPHdr) : StreamState :=
  if (h.rawflags >>> 1) % 2 = 1 then
    { st0 with seq_base := h.seq_number, last_seq := st0.seq_wrap }
  else st0

/-- Stream portion of `TCP.__init__` (`tcp.py` lines 183-219) on an
already-decoded header: SYN rebases `seq_base` and realigns
`last_seq`, the seq is normalized, a segment with `seq < last_seq` is
dropped as a retransmission, otherwise the payload is decoded and
`last_seq` is updated when the segment carried payload bytes. -/
def processDecoded (st0 : StreamState) (h : TCPHdr) (payload : List Nat)
    (truncbytes : Int) : StreamState × SegResult :=
  let st1 := synAdjust st0 h
  let seq := (normalizeSeq st1 h.seq_number).1
  let st2 := (normalizeSeq st1 h.seq_number).2
  if seq < st2.last_seq then (st2, ⟨seq, true, {}⟩)
  else
    let r := decodePayload h.src_port h.dst_port h.rawflags truncbytes st2 payload
    let st3 := if 0 < payload.length then { r.1 with last_seq := seq } else r.1
    (st3, ⟨seq, false, r.2⟩)

/-- Full decode of one segment from the raw capture bytes. -/
def processSegment (st : StreamState) (buf : List Nat) (truncbytes : Int) :
    Except DecodeErr (StreamState × SegResult) :=
  (decodeTCP buf).map fun hp => processDecoded st hp.1 hp.2 truncbytes

/-- Run a list of `(bytes, truncbytes)` capture records through one
TCP stream, creating the stream state on first encounter with
`seq_base` taken from the first segment's sequence number. -/
def runStreamAux : Option StreamState → List (List Nat × Int) →
    Except DecodeErr (Option StreamState × List SegResult)
  | st, [] => .ok (st, [])
  | st, (buf, t) :: rest =>
    match decodeTCP buf with
    | .error e => .error e
    | .ok (h, payload) =>
      let st0 := st.getD (initStream h.seq_number)
      let (st1, r) := processDecoded st0 h payload t
      match runStreamAux (some st1) rest with
      | .error e => .error e
      | .ok (stF, rs) => .ok (stF, r :: rs)

/-- Run a fresh stream over capture records. -/
def runStream (bufs : List (List Nat × Int)) :
    Except DecodeErr (Option StreamState × List SegResult) :=
  runStreamAux none bufs

/-- Final `msfrag` length of a fresh stream run, when it succeeds. -/
def finalMsfragLen (bufs : List (List Nat × Int)) : Option Nat :=
  match runStream bufs with
  | .ok (some st, _) => some st.msfrag.length
  | _ => none

/-- Final `frag_off` of a fresh stream run, when it succeeds. -/
def finalFragOff (bufs : List (List Nat × Int)) : Option Int :=
  match runStream bufs with
  | .ok (some st, _) => some st.frag_off
  | _ => none

/-- Final `last_seq` of a fresh stream run, when it succeeds. -/
def finalLastSeq (bufs : List (List Nat × Int)) : Option Int :=
  match runStream bufs with
  | .ok (some st, _) => some st.last_seq
  | _ => none

/-- Per-segment relative seq values of a fresh stream run. -/
def seqsOf (bufs : List (List Nat × Int)) : Option (List Int) :=
  match runStream bufs with
  | .ok (_, rs) => some (rs.map (·.seq))
  | _ => none

/-- Per-segment retransmission-drop flags of a fresh stream run. -/
def droppedFlags (bufs : List (List Nat × Int)) : Option (List Bool) :=
  match runStream bufs with
  | .ok (_, rs) => some (rs.map (·.dropped))
  | _ => none

/-- Per-segment RPC-attachment flags of a fresh stream run. -/
def rpcFlags (bufs : List (List Nat × Int)) : Option (List Bool) :=
  match runStream bufs with
  | .ok (_, rs) => some (rs.map (·.ev.rpc.isSome))
  | _ => none

/-- A 20-byte TCP header (ports 1000 → 2049, `hl = 5`, raw flags
0x18 = PSH,ACK) carrying the given absolute sequence number, used by
the concrete scenarios. -/
def mkHdr (seqn : Nat) : List Nat :=
  [3, 232, 8, 1] ++
  [seqn / 16777216 % 256, seqn / 65536 % 256, seqn / 256 % 256, seqn % 256] ++
  [0, 0, 0, 0, 80, 24, 0, 0, 0, 0, 0, 0]

/-- An `msfrag` accumulation is incomplete when it does not decode as
an RPC header at all, or its declared record body extends past the
accumulated bytes; this holds for every `msfrag` value the reassembler
ever stores. -/
def msfragIncomplete (m : List Nat) : Bool :=
  match parseRPC m with
  | none => true
  | some r => decide ((m.length : Int) - 4 < (r.size : Int))

/-- A well-formed option buffer: each option decodes with every read
succeeding and a kind of at least 1 (so the loop of `TCP.__init__`
appends it and continues), down to an empty buffer; with fuel. -/
def cleanOptsAux : Nat → List Nat → Bool
  | 0, _ => false
  | _ + 1, [] => true
  | fuel + 1, k :: tl =>
    let p := parseOption (k :: tl)
    (p.ok && match p.opt.kind with
      | some n => decide (1 ≤ n)
      | none => false) &&
    cleanOptsAux fuel p.rest

/-- A well-formed option buffer, at its natural fuel. -/
def cleanOpts (bs : List Nat) : Bool := cleanOptsAux (bs.length + 1) bs

/-- Scenario S2, payload 1: record mark 0x80000BB8 (body 3000), xid 1,
message type 0, and the first 1192 filler body bytes — 1204 bytes. -/
def s2p1 : List Nat :=
  [128, 0, 11, 184, 0, 0, 0, 1, 0, 0, 0, 0] ++ List.replicate 1192 255

/-- Scenario S2, payload 2: the next 1200 body bytes. -/
def s2p2 : List Nat := List.replicate 1200 255

/-- Scenario S2, payload 3: the final 600 body bytes. -/
def s2p3 : List Nat := List.replicate 600 255

/-- Scenario S2, segment 1: payload 1 at absolute seq 1000. -/
def s2seg1 : List Nat × Int := (mkHdr 1000 ++ s2p1, 0)

/-- Scenario S2, segment 2: payload 2 at absolute seq 2204. -/
def s2seg2 : List Nat × Int := (mkHdr 2204 ++ s2p2, 0)

/-- Scenario S2, segment 3: payload 3 at absolute seq 3404. -/
def s2seg3 : List Nat × Int := (mkHdr 3404 ++ s2p3, 0)

/-- The segment decode errors exactly on a truncated 20-byte fixed
header or an options read past the end of the buffer. -/
theorem decodeTCP_error_iff (buf : List Nat) :
    decodeTCP buf = .error .shortHeader ↔
    buf.length < 20 ∨ buf.length < 4 * (be16 (buf.getD 12 0) (buf.getD 13 0) >>> 12) := by
  simp only [decodeTCP]
  split_ifs with h1 h2 h3 <;> (simp_all [List.length_drop]; try omega)

/-- C6: segment decoding fails with `ShortHeader` exactly when fewer
than 20 bytes are available at the cursor or when `header_size`
(4 × header-length words, read from bytes 12-13) exceeds the remaining
bytes in the buffer. -/
theorem c6_shortheader_iff (buf : List Nat) :
    decodeTCP buf = .error .shortHeader ↔
    buf.length < 20 ∨ buf.length < 4 * (be16 (buf.getD 12 0) (buf.getD 13 0) >>> 12) :=
  decodeTCP_error_iff buf

/-- C3 counterexample: a stream whose absolute sequence numbers cross
the 2^32 boundary (0, then 4294967286, then 5 after wrapping) yields
relative seq values 0, 4294967286, 5 — not monotonically increasing,
because the wrap is only detected when a segment's absolute number
falls below `seq_base`, which never happens when `seq_base = 0`. -/
theorem c3_counterexample :
    seqsOf [(mkHdr 0, 0), (mkHdr 4294967286, 0), (mkHdr 5, 0)] =
      some [0, 4294967286, 5] ∧ (5 : Int) < 4294967286 := by
  constructor
  · decide
  · decide

/-- C3 amended: the normalizer never yields a negative relative seq,
and across two consecutive segments the relative seq is monotonically
non-decreasing provided that whenever the absolute sequence number
decreases it falls below `seq_base` (the only way the implementation
detects a wrap). -/
theorem c3_amended_wrap_monotone (st : StreamState) (a1 a2 : Nat)
    (hw : 0 ≤ st.seq_wrap) (hb : st.seq_base < 4294967296)
    (h1 : a1 < 4294967296) (h2 : a2 < 4294967296) :
    (0 ≤ (normalizeSeq st a1).1 ∧ 0 ≤ (normalizeSeq (normalizeSeq st a1).2 a2).1) ∧
    ((a1 ≤ a2 ∨ a2 < st.seq_base) →
      (normalizeSeq st a1).1 ≤ (normalizeSeq (normalizeSeq st a1).2 a2).1) := by
  simp only [normalizeSeq]
  split <;> split <;> (simp_all; try omega)

/-- Witness for the C3 amended theorem at a concrete wrap: base 1000,
segment at 1000 then at 990 (the 32-bit subtraction wraps). -/
theorem c3_amended_wrap_monotone_witness :
    (0 ≤ (normalizeSeq ⟨[], 0, 0, 0, 1000⟩ 1000).1 ∧
      0 ≤ (normalizeSeq (normalizeSeq ⟨[], 0, 0, 0, 1000⟩ 1000).2 990).1) ∧
    ((1000 ≤ 990 ∨ 990 < (⟨[], 0, 0, 0, 1000⟩ : StreamState).seq_base) →
      (normalizeSeq ⟨[], 0, 0, 0, 1000⟩ 1000).1 ≤
        (normalizeSeq (normalizeSeq ⟨[], 0, 0, 0, 1000⟩ 1000).2 990).1) :=
  c3_amended_wrap_monotone ⟨[], 0, 0, 0, 1000⟩ 1000 990 (by decide) (by decide)
    (by decide) (by decide)

/-- C2 counterexample: two segments at absolute seq 1000 with 200
payload bytes each.  The second is NOT dropped (`seq < last_seq` is
false for equal seq, since `last_seq` holds the previous segment's own
relative seq, 0, not 0 + 200), and `last_seq` ends at 0 — the relative
equivalent of 1000 — not at the relative equivalent of 1200 (= 200). -/
theorem c2_counterexample :
    droppedFlags [(mkHdr 1000 ++ List.replicate 200 255, 0),
      (mkHdr 1000 ++ List.replicate 200 255, 0)] = some [false, false] ∧
    finalLastSeq [(mkHdr 1000 ++ List.replicate 200 255, 0),
      (mkHdr 1000 ++ List.replicate 200 255, 0)] = some 0 ∧
    (0 : Int) ≠ 200 := by
  refine ⟨by decide, by decide, by decide⟩

/-- C2 amended: a duplicate segment with the same seq as the previous
one is processed again (the retransmission test `seq < last_seq` is
strict and `last_seq` stores the segment's own relative seq), so after
two segments at absolute seq 1000 `last_seq` is the relative
equivalent of 1000; only a segment whose relative seq is strictly
below `last_seq` is dropped with its payload undelivered and
`last_seq` unchanged, as for a seq-1200 segment after a seq-1400 one. -/
theorem c2_amended_retransmission :
    droppedFlags [(mkHdr 1000 ++ List.replicate 200 255, 0),
      (mkHdr 1400 ++ List.replicate 200 255, 0),
      (mkHdr 1400 ++ List.replicate 200 255, 0),
      (mkHdr 1200 ++ List.replicate 200 255, 0)] = some [false, false, false, true] ∧
    seqsOf [(mkHdr 1000 ++ List.replicate 200 255, 0),
      (mkHdr 1400 ++ List.replicate 200 255, 0),
      (mkHdr 1400 ++ List.replicate 200 255, 0),
      (mkHdr 1200 ++ List.replicate 200 255, 0)] = some [0, 400, 400, 200] ∧
    finalLastSeq [(mkHdr 1000 ++ List.replicate 200 255, 0),
      (mkHdr 1400 ++ List.replicate 200 255, 0),
      (mkHdr 1400 ++ List.replicate 200 255, 0),
      (mkHdr 1200 ++ List.replicate 200 255, 0)] = some 400 := by
  refine ⟨by decide, by decide, by decide⟩

/-- C1 counterexample: a single segment carrying one complete RPC
record (mark 0x80000008, 8-byte body) followed by the first 8 bytes of
a record that straddles into the next segment.  After processing,
`msfrag` holds those 8 bytes and `frag_off = 12` — both non-zero,
refuting "msfrag is empty or frag_off is zero". -/
theorem c1_counterexample :
    finalMsfragLen [(mkHdr 1000 ++
      ([128, 0, 0, 8, 0, 0, 0, 1, 0, 0, 0, 0] ++ [128, 0, 0, 16, 0, 0, 0, 2]), 0)] =
      some 8 ∧
    finalFragOff [(mkHdr 1000 ++
      ([128, 0, 0, 8, 0, 0, 0, 1, 0, 0, 0, 0] ++ [128, 0, 0, 16, 0, 0, 0, 2]), 0)] =
      some 12 ∧
    ¬((8 : Nat) = 0 ∨ (12 : Int) = 0) := by
  refine ⟨by decide, by decide, by decide⟩

/-- C10: a probe decode that raises is treated exactly like a failed
probe — the payload decode with an always-raising probe computes the
same state and events as with an always-falsy probe, on every input,
and in particular never aborts the segment decode. -/
theorem c10_probe_exception_like_failed_probe (src dst raw : Nat) (t : Int)
    (st : StreamState) (payload : List Nat) :
    decodePayloadP (fun _ => .error ()) src dst raw t st payload =
    decodePayloadP (fun _ => .ok none) src dst raw t st payload := rfl

@[simp] theorem normalizeSeq_msfrag (st : StreamState) (a : Nat) :
    (normalizeSeq st a).2.msfrag = st.msfrag := by
  simp only [normalizeSeq]; split <;> rfl

@[simp] theorem normalizeSeq_frag_off (st : StreamState) (a : Nat) :
    (normalizeSeq st a).2.frag_off = st.frag_off := by
  simp only [normalizeSeq]; split <;> rfl

@[simp] theorem normalizeSeq_last_seq (st : StreamState) (a : Nat) :
    (normalizeSeq st a).2.last_seq = st.last_seq := by
  simp only [normalizeSeq]; split <;> rfl

@[simp] theorem synAdjust_msfrag (st : StreamState) (h : TCPHdr) :
    (synAdjust st h).msfrag = st.msfrag := by
  simp only [synAdjust]; split <;> rfl

@[simp] theorem synAdjust_frag_off (st : StreamState) (h : TCPHdr) :
    (synAdjust st h).frag_off = st.frag_off := by
  simp only [synAdjust]; split <;> rfl

/-- In every non-straddling branch of the post-header tail the residue
invariant is restored (`msfrag` empty or `frag_off` at its zero entry
value), and a straddle can only happen with an RPC attached. -/
theorem afterHeader_inv (probe : List Nat → Except Unit (Option RpcObj)) (t : Int)
    (st : StreamState) (sid u : Unpack) (size ldata : Int) (r : RpcObj)
    (h0 : st.frag_off = 0) :
    ((afterHeader probe t st sid u size ldata r).2.straddled = false →
      (afterHeader probe t st sid u size ldata r).1.msfrag = [] ∨
      (afterHeader probe t st sid u size ldata r).1.frag_off = 0) ∧
    ((afterHeader probe t st sid u size ldata r).2.straddled = true →
      (afterHeader probe t st sid u size ldata r).2.rpc.isSome = true) := by
  simp only [afterHeader]
  split
  · exact ⟨fun _ => Or.inr h0, fun h => by simp at h⟩
  · split
    · exact ⟨fun _ => Or.inl rfl, fun _ => rfl⟩
    · split
      · split
        · exact ⟨fun h => by simp at h, fun _ => rfl⟩
        · split
          · exact ⟨fun h => by simp at h, fun _ => rfl⟩
          · exact ⟨fun _ => Or.inl rfl, fun _ => rfl⟩
      · exact ⟨fun _ => Or.inr rfl, fun _ => rfl⟩

/-- C1 amended: after the reassembler handles a segment of a stream
whose state entered with `frag_off = 0`, `msfrag` is empty or
`frag_off` is zero in EVERY case — ordinary complete records with an
exact fit, with a fitting next record (re-entry), or with no leftover
bytes all restore the invariant — EXCEPT when the segment attached a
complete RPC record and the following record begins in this segment
but straddles into the next (`tcp.py` lines 334-338): that straddle
can only occur with an RPC attached, and then `frag_off` (the
intra-segment offset of the straddling record) and `msfrag` (its
initial bytes) are both non-zero, as the counterexample exhibits. -/
theorem c1_amended_invariant (src dst raw : Nat) (t : Int) (st : StreamState)
    (payload : List Nat) (h0 : st.frag_off = 0) :
    ((decodePayload src dst raw t st payload).2.straddled = false →
      (decodePayload src dst raw t st payload).1.msfrag = [] ∨
      (decodePayload src dst raw t st payload).1.frag_off = 0) ∧
    ((decodePayload src dst raw t st payload).2.straddled = true →
      (decodePayload src dst raw t st payload).2.rpc.isSome = true) := by
  simp only [decodePayload, decodePayloadP]
  split
  · exact ⟨fun _ => Or.inr h0, fun h => by simp at h⟩
  · split
    · exact ⟨fun _ => Or.inr h0, fun h => by simp at h⟩
    · split
      · exact afterHeader_inv _ _ _ _ _ _ _ _ rfl
      · split
        · refine ⟨fun _ => Or.inr ?_, fun h => by simp at h⟩
          split_ifs <;> simp [h0]
        · refine afterHeader_inv _ _ _ _ _ _ _ _ ?_
          split_ifs <;> simp [h0]

/-- Witness for the C1 amended theorem on an empty ACK segment of a
fresh stream. -/
theorem c1_amended_invariant_witness :
    ((decodePayload 1000 2049 16 0 (initStream 5) []).2.straddled = false →
      (decodePayload 1000 2049 16 0 (initStream 5) []).1.msfrag = [] ∨
      (decodePayload 1000 2049 16 0 (initStream 5) []).1.frag_off = 0) ∧
    ((decodePayload 1000 2049 16 0 (initStream 5) []).2.straddled = true →
      (decodePayload 1000 2049 16 0 (initStream 5) []).2.rpc.isSome = true) :=
  c1_amended_invariant 1000 2049 16 0 (initStream 5) [] rfl

/-- C8: a segment with source or destination port 53 or 88 that is not
dropped as a retransmission hands its payload to the DNS or KRB5
decoder and returns at once: `msfrag` and `frag_off` are unchanged, no
RPC object is attached, and `last_seq` is still updated to the
segment's relative seq when the payload is non-empty. -/
theorem c8_port_dispatch (st0 : StreamState) (h : TCPHdr) (payload : List Nat) (t : Int)
    (hport : h.src_port = 53 ∨ h.dst_port = 53 ∨ h.src_port = 88 ∨ h.dst_port = 88)
    (hnr : ¬((normalizeSeq (synAdjust st0 h) h.seq_number).1 <
      (normalizeSeq (synAdjust st0 h) h.seq_number).2.last_seq)) :
    ((processDecoded st0 h payload t).1.msfrag = st0.msfrag ∧
      (processDecoded st0 h payload t).1.frag_off = st0.frag_off) ∧
    ((processDecoded st0 h payload t).2.ev.dns = true ∨
      (processDecoded st0 h payload t).2.ev.krb = true) ∧
    (processDecoded st0 h payload t).2.ev.rpc = none ∧
    (payload ≠ [] →
      (processDecoded st0 h payload t).1.last_seq = (processDecoded st0 h payload t).2.seq) := by
  simp only [processDecoded]
  rw [if_neg hnr]
  by_cases h1 : h.src_port = 53 ∨ h.dst_port = 53
  · simp only [decodePayload, decodePayloadP, if_pos h1]
    split_ifs <;> simp_all
  · have h2 : h.src_port = 88 ∨ h.dst_port = 88 := by tauto
    simp only [decodePayload, decodePayloadP, if_neg h1, if_pos h2]
    split_ifs <;> simp_all

/-- Witness for C8: a DNS segment (source port 53) with one payload
byte on a stream whose state carries a non-empty `msfrag`. -/
theorem c8_port_dispatch_witness :
    ((processDecoded ⟨[1, 2, 3], 0, 0, 0, 500⟩ ⟨53, 2049, 600, 0, 5, 20, 16, 0, 0, 0, none⟩
        [9] 0).1.msfrag = (⟨[1, 2, 3], 0, 0, 0, 500⟩ : StreamState).msfrag ∧
      (processDecoded ⟨[1, 2, 3], 0, 0, 0, 500⟩ ⟨53, 2049, 600, 0, 5, 20, 16, 0, 0, 0, none⟩
        [9] 0).1.frag_off = (⟨[1, 2, 3], 0, 0, 0, 500⟩ : StreamState).frag_off) ∧
    ((processDecoded ⟨[1, 2, 3], 0, 0, 0, 500⟩ ⟨53, 2049, 600, 0, 5, 20, 16, 0, 0, 0, none⟩
        [9] 0).2.ev.dns = true ∨
      (processDecoded ⟨[1, 2, 3], 0, 0, 0, 500⟩ ⟨53, 2049, 600, 0, 5, 20, 16, 0, 0, 0, none⟩
        [9] 0).2.ev.krb = true) ∧
    (processDecoded ⟨[1, 2, 3], 0, 0, 0, 500⟩ ⟨53, 2049, 600, 0, 5, 20, 16, 0, 0, 0, none⟩
      [9] 0).2.ev.rpc = none ∧
    ([9] ≠ ([] : List Nat) →
      (processDecoded ⟨[1, 2, 3], 0, 0, 0, 500⟩ ⟨53, 2049, 600, 0, 5, 20, 16, 0, 0, 0, none⟩
        [9] 0).1.last_seq =
      (processDecoded ⟨[1, 2, 3], 0, 0, 0, 500⟩ ⟨53, 2049, 600, 0, 5, 20, 16, 0, 0, 0, none⟩
        [9] 0).2.seq) :=
  c8_port_dispatch ⟨[1, 2, 3], 0, 0, 0, 500⟩ ⟨53, 2049, 600, 0, 5, 20, 16, 0, 0, 0, none⟩
    [9] 0 (Or.inl rfl) (by decide)
/-- C4 counterexample: with capture truncation present
(`length_orig != length_inc`, here 100 truncated bytes), an ACK-only
(raw flags exactly 0x10) segment with EMPTY payload arriving while
`msfrag` holds a parseable 12-byte record head does NOT leave `msfrag`
unchanged: the incomplete-record guard at `tcp.py` line 301 requires
no truncation, so the complete path at lines 308-311 runs, clears
`msfrag` and attaches a best-effort RPC object. -/
theorem c4_counterexample :
    (decodePayload 1000 2049 16 100
        ⟨[128, 0, 0, 16, 0, 0, 0, 1, 0, 0, 0, 0], 0, 0, 0, 0⟩ []).1.msfrag = [] ∧
    (decodePayload 1000 2049 16 100
        ⟨[128, 0, 0, 16, 0, 0, 0, 1, 0, 0, 0, 0], 0, 0, 0, 0⟩ []).2.rpc.isSome = true ∧
    ([128, 0, 0, 16, 0, 0, 0, 1, 0, 0, 0, 0] : List Nat) ≠ [] := by
  decide

/-- C4 amended: an empty-payload ACK-only segment (raw flags exactly
0x10) arriving while `msfrag` is non-empty leaves the stream state
unchanged PROVIDED the capture record is untruncated
(`length_orig == length_inc`) — with truncation a parseable `msfrag`
is force-decoded, cleared and an RPC attached, as the counterexample
shows — whereas an empty-payload segment with any other raw flags on a
non-DNS/KRB5 port clears both `msfrag` and `frag_off`
unconditionally. -/
theorem c4_ack_only_reset (src dst raw : Nat) (t : Int) (st : StreamState)
    (hm : st.msfrag ≠ []) :
    (raw = 16 → t = 0 → msfragIncomplete st.msfrag = true →
      (decodePayload src dst raw t st []).1 = st) ∧
    (raw ≠ 16 → src ≠ 53 → dst ≠ 53 → src ≠ 88 → dst ≠ 88 →
      (decodePayload src dst raw t st []).1 = { st with msfrag := [], frag_off := 0 }) := by
  have hms : 0 < st.msfrag.length := List.length_pos.mpr hm
  have hseek : ¬(0 < st.frag_off ∧ st.msfrag.length = 0) := by
    rintro ⟨-, hz⟩; exact hm (List.length_eq_zero.mp hz)
  have hpn : parseRPCU ⟨([] : List Nat), 0⟩ = none := rfl
  have hins : Unpack.insert ⟨([] : List Nat), 0⟩ st.msfrag = ⟨st.msfrag, 0⟩ := by
    simp [Unpack.insert]
  have hsz : Unpack.size ⟨st.msfrag, 0⟩ = (st.msfrag.length : Int) := by
    simp [Unpack.size]
  constructor
  · intro hraw ht hinc
    subst hraw ht
    by_cases h1 : src = 53 ∨ dst = 53
    · simp [decodePayload, decodePayloadP, h1]
    · by_cases h2 : src = 88 ∨ dst = 88
      · simp [decodePayload, decodePayloadP, h1, h2]
      · simp only [decodePayload, decodePayloadP, if_neg h1, if_neg h2, if_neg hseek,
          if_pos hms, hpn]
        rcases hp : parseRPC st.msfrag with _ | r
        · simp [parseRPCU, Unpack.remaining, hp, hms, hins]
        · simp only [msfragIncomplete, hp, decide_eq_true_eq] at hinc
          simp [parseRPCU, Unpack.remaining, hp, hms, hins, afterHeader, hsz, hinc,
            Unpack.getbytes]
  · intro hraw h53s h53d h88s h88d
    have h1 : ¬(src = 53 ∨ dst = 53) := by tauto
    have h2 : ¬(src = 88 ∨ dst = 88) := by tauto
    simp only [decodePayload, decodePayloadP, if_neg h1, if_neg h2, if_neg hseek,
      if_pos hms, hpn]
    simp [Unpack.size, hms, hraw, hpn]

/-- Witness for C4 at a concrete incomplete accumulation: `msfrag`
holding a 12-byte record head declaring a 16-byte body. -/
theorem c4_ack_only_reset_witness :
    (decodePayload 1000 2049 16 0
        ⟨[128, 0, 0, 16, 0, 0, 0, 1, 0, 0, 0, 0], 0, 0, 0, 0⟩ []).1 =
      ⟨[128, 0, 0, 16, 0, 0, 0, 1, 0, 0, 0, 0], 0, 0, 0, 0⟩ ∧
    (decodePayload 1000 2049 24 0
        ⟨[128, 0, 0, 16, 0, 0, 0, 1, 0, 0, 0, 0], 0, 0, 0, 0⟩ []).1 =
      { (⟨[128, 0, 0, 16, 0, 0, 0, 1, 0, 0, 0, 0], 0, 0, 0, 0⟩ : StreamState) with
        msfrag := [], frag_off := 0 } :=
  ⟨(c4_ack_only_reset 1000 2049 16 0 _ (by decide)).1 rfl rfl (by decide),
   (c4_ack_only_reset 1000 2049 24 0 _ (by decide)).2 (by decide) (by decide) (by decide)
     (by decide) (by decide)⟩

/-- The incomplete-record branch of the post-header tail: with no
capture truncation and fewer body bytes than the record declares, all
remaining bytes from the restore point are appended to `msfrag`. -/
theorem afterHeader_incomplete (probe : List Nat → Except Unit (Option RpcObj))
    (st : StreamState) (sid u : Unpack) (size ldata : Int) (r : RpcObj)
    (h : ldata < (r.size : Int)) :
    afterHeader probe 0 st sid u size ldata r =
      ({ st with msfrag := st.msfrag ++ sid.getbytes }, {}) := by
  simp only [afterHeader]
  rw [if_pos ⟨by trivial, h⟩]

/-- When no capture truncation is present, the RPC header (over the
accumulated fragment plus payload) decodes, and the available body
bytes fall short of the declared record size, the reassembler appends
all remaining bytes to `msfrag` and returns without attaching an RPC
object or touching any other field. -/
theorem incompleteRecord_step (src dst raw : Nat) (st : StreamState) (payload : List Nat)
    (r : RpcObj)
    (h1 : ¬(src = 53 ∨ dst = 53)) (h2 : ¬(src = 88 ∨ dst = 88))
    (hfo : st.frag_off = 0 ∨ st.msfrag ≠ [])
    (hdirect : st.msfrag ≠ [] → parseRPC payload = none)
    (hpay : payload ≠ [])
    (hparse : parseRPC (st.msfrag ++ payload) = some r)
    (hinc : (st.msfrag.length : Int) + payload.length - 4 < (r.size : Int)) :
    decodePayload src dst raw 0 st payload =
      ({ st with msfrag := st.msfrag ++ payload }, {}) := by
  have hlen : 0 < payload.length := List.length_pos.mpr hpay
  have hseek : ¬(0 < st.frag_off ∧ st.msfrag.length = 0) := by
    rcases hfo with hz | hne
    · rintro ⟨hgt, -⟩; rw [hz] at hgt; exact absurd hgt (by norm_num)
    · rintro ⟨-, hz⟩; exact hne (List.length_eq_zero.mp hz)
  have hsz0 : ¬((⟨payload, 0⟩ : Unpack).size = 0 ∧ 0 < st.msfrag.length ∧ raw ≠ 16) := by
    rintro ⟨hz, -, -⟩
    simp only [Unpack.size, Nat.cast_zero, sub_zero, Nat.cast_eq_zero] at hz
    omega
  by_cases hm : st.msfrag = []
  · have hc1 : ¬(0 < st.msfrag.length) := by rw [hm]; simp
    have hparse' : parseRPC payload = some r := by
      rw [hm] at hparse; simpa using hparse
    simp only [decodePayload, decodePayloadP, if_neg h1, if_neg h2, if_neg hseek,
      if_neg hc1, if_neg hsz0]
    simp only [parseRPCU, Unpack.remaining, List.drop_zero, hparse']
    rw [afterHeader_incomplete]
    · simp [Unpack.getbytes, Unpack.remaining]
    · rw [hm] at hinc
      simp only [List.length_nil, Nat.cast_zero, zero_add] at hinc
      simp only [Unpack.size, Nat.cast_zero, sub_zero]
      omega
  · have hms : 0 < st.msfrag.length := List.length_pos.mpr hm
    have hdir : parseRPC payload = none := hdirect hm
    have hins : Unpack.insert ⟨payload, 0⟩ st.msfrag = ⟨st.msfrag ++ payload, 0⟩ := by
      simp [Unpack.insert]
    simp only [decodePayload, decodePayloadP, if_neg h1, if_neg h2, if_neg hseek,
      if_pos hms, if_neg hsz0]
    simp only [parseRPCU, Unpack.remaining, List.drop_zero, hdir, if_pos hms, hins,
      hparse]
    rw [afterHeader_incomplete]
    · simp [Unpack.getbytes, Unpack.remaining]
    · simp only [Unpack.size, Nat.cast_zero, sub_zero, List.length_append]
      push_cast
      omega

theorem s2p1_length : s2p1.length = 1204 := by simp [s2p1]

theorem s2p2_length : s2p2.length = 1200 := by simp [s2p2]

theorem s2p3_length : s2p3.length = 600 := by simp [s2p3]

/-- Any buffer beginning with scenario S2's record head (mark
0x80000BB8, xid 1, call) decodes to the 3000-byte record object. -/
theorem parseRPC_s2head (y : List Nat) :
    parseRPC ([128, 0, 11, 184, 0, 0, 0, 1, 0, 0, 0, 0] ++ y) =
      some ⟨3000, 1, 0, true⟩ := by
  norm_num [parseRPC, be32]

/-- A run of 0xFF filler bytes is never a valid RPC header (its
message-type word is 0xFFFFFFFF). -/
theorem parseRPC_rep255 (n : Nat) (h : 12 ≤ n) :
    parseRPC (List.replicate n 255) = none := by
  obtain ⟨m, rfl⟩ := Nat.exists_eq_add_of_le h
  rw [List.replicate_add]
  have h12 : List.replicate 12 255 =
      [255, 255, 255, 255, 255, 255, 255, 255, 255, 255, 255, 255] := rfl
  rw [h12]
  norm_num [parseRPC, be32]

/-- S2 segment 1 at the reassembler: the 1204-byte head of the record
is accumulated whole. -/
theorem s2step1 :
    decodePayload 1000 2049 24 0 ⟨[], 0, 0, 0, 1000⟩ s2p1 = (⟨s2p1, 0, 0, 0, 1000⟩, {}) := by
  have h := incompleteRecord_step 1000 2049 24 ⟨[], 0, 0, 0, 1000⟩ s2p1 ⟨3000, 1, 0, true⟩
    (by norm_num) (by norm_num) (Or.inl rfl)
    (fun hne => absurd rfl hne)
    (by rw [s2p1]; simp)
    (by rw [List.nil_append, s2p1]; exact parseRPC_s2head _)
    (by simp [s2p1_length])
  simpa using h

/-- S2 segment 2 at the reassembler: 1200 more bytes are appended to
the in-progress fragment. -/
theorem s2step2 :
    decodePayload 1000 2049 24 0 ⟨s2p1, 0, 0, 0, 1000⟩ s2p2 =
      (⟨s2p1 ++ s2p2, 0, 0, 0, 1000⟩, {}) := by
  have h := incompleteRecord_step 1000 2049 24 ⟨s2p1, 0, 0, 0, 1000⟩ s2p2 ⟨3000, 1, 0, true⟩
    (by norm_num) (by norm_num) (Or.inl rfl)
    (fun _ => by rw [s2p2]; exact parseRPC_rep255 1200 (by norm_num))
    (by rw [s2p2]; simp)
    (by rw [s2p1, List.append_assoc]; exact parseRPC_s2head _)
    (by simp [s2p1_length, s2p2_length])
  simpa using h

/-- The exact-fit completion path: with a non-empty accumulation whose
direct parse fails, a record declaring exactly the available body, the
reassembler emits the RPC object (a call, so no xid is popped) and
clears both `msfrag` and `frag_off`. -/
theorem completeRecord_step (src dst raw : Nat) (st : StreamState) (payload : List Nat)
    (r : RpcObj)
    (h1 : ¬(src = 53 ∨ dst = 53)) (h2 : ¬(src = 88 ∨ dst = 88))
    (hm : st.msfrag ≠ [])
    (hdirect : parseRPC payload = none)
    (hpay : payload ≠ [])
    (hparse : parseRPC (st.msfrag ++ payload) = some r)
    (h4 : 4 ≤ st.msfrag.length + payload.length)
    (hexact : st.msfrag.length + payload.length - 4 = r.size)
    (hcall : r.rtype = 0) :
    decodePayload src dst raw 0 st payload =
      ({ st with msfrag := [], frag_off := 0 }, { rpc := some r }) := by
  have hms : 0 < st.msfrag.length := List.length_pos.mpr hm
  have hseek : ¬(0 < st.frag_off ∧ st.msfrag.length = 0) := by
    rintro ⟨-, hz⟩; exact hm (List.length_eq_zero.mp hz)
  have hlen : 0 < payload.length := List.length_pos.mpr hpay
  have hsz0 : ¬((⟨payload, 0⟩ : Unpack).size = 0 ∧ 0 < st.msfrag.length ∧ raw ≠ 16) := by
    rintro ⟨hz, -, -⟩
    simp only [Unpack.size, Nat.cast_zero, sub_zero, Nat.cast_eq_zero] at hz
    omega
  have hins : Unpack.insert ⟨payload, 0⟩ st.msfrag = ⟨st.msfrag ++ payload, 0⟩ := by
    simp [Unpack.insert]
  simp only [decodePayload, decodePayloadP, if_neg hseek, if_neg h1, if_neg h2,
    if_pos hms, if_neg hsz0]
  simp only [parseRPCU, Unpack.remaining, List.drop_zero, hdirect, if_pos hms, hins,
    hparse]
  simp only [afterHeader, Unpack.size, Unpack.consume, Unpack.getbytes, Unpack.remaining,
    List.length_append, List.length_drop]
  rw [if_neg (by push_cast; omega)]
  rw [if_pos (Or.inl hms)]
  have hmin : min r.size ((st.msfrag.length + payload.length) - (0 + 4)) = r.size := by
    omega
  rw [hmin]
  rw [if_neg (by simp)]
  rw [if_neg (by push_cast; omega)]
  simp [hcall]

/-- S2 segment 3 at the reassembler: the final 600 bytes complete the
3000-byte record; one RPC is attached and the state is cleared. -/
theorem s2step3 :
    decodePayload 1000 2049 24 0 ⟨s2p1 ++ s2p2, 0, 1204, 0, 1000⟩ s2p3 =
      (⟨[], 0, 1204, 0, 1000⟩, { rpc := some ⟨3000, 1, 0, true⟩ }) := by
  have h := completeRecord_step 1000 2049 24 ⟨s2p1 ++ s2p2, 0, 1204, 0, 1000⟩ s2p3
    ⟨3000, 1, 0, true⟩
    (by norm_num) (by norm_num)
    (by rw [s2p1]; simp)
    (by rw [s2p3]; exact parseRPC_rep255 600 (by norm_num))
    (by rw [s2p3]; simp)
    (by rw [List.append_assoc, s2p1, List.append_assoc]
        exact parseRPC_s2head _)
    (by simp [s2p1_length, s2p2_length, s2p3_length])
    (by simp [s2p1_length, s2p2_length, s2p3_length])
    rfl
  simpa using h

/-- Decoding a capture record made of a `mkHdr` header and a payload
yields the fixed header fields (ports 1000 and 2049, `hl = 5`, raw
flags 24) with the given sequence number, and the payload. -/
theorem decodeTCP_mkHdr (seqn : Nat) (h : seqn < 4294967296) (p : List Nat) :
    decodeTCP (mkHdr seqn ++ p) =
      .ok (⟨1000, 2049, seqn, 0, 5, 20, 24, 0, 0, 0, none⟩, p) := by
  have hlen : (mkHdr seqn ++ p).length = 20 + p.length := by simp [mkHdr]; omega
  have hd : List.drop 20 (mkHdr seqn ++ p) = p := rfl
  have g0 : (mkHdr seqn ++ p).getD 0 0 = 3 := rfl
  have g1 : (mkHdr seqn ++ p).getD 1 0 = 232 := rfl
  have g2 : (mkHdr seqn ++ p).getD 2 0 = 8 := rfl
  have g3 : (mkHdr seqn ++ p).getD 3 0 = 1 := rfl
  have g4 : (mkHdr seqn ++ p).getD 4 0 = seqn / 16777216 % 256 := rfl
  have g5 : (mkHdr seqn ++ p).getD 5 0 = seqn / 65536 % 256 := rfl
  have g6 : (mkHdr seqn ++ p).getD 6 0 = seqn / 256 % 256 := rfl
  have g7 : (mkHdr seqn ++ p).getD 7 0 = seqn % 256 := rfl
  have g8 : (mkHdr seqn ++ p).getD 8 0 = 0 := rfl
  have g9 : (mkHdr seqn ++ p).getD 9 0 = 0 := rfl
  have g10 : (mkHdr seqn ++ p).getD 10 0 = 0 := rfl
  have g11 : (mkHdr seqn ++ p).getD 11 0 = 0 := rfl
  have g12 : (mkHdr seqn ++ p).getD 12 0 = 80 := rfl
  have g13 : (mkHdr seqn ++ p).getD 13 0 = 24 := rfl
  have g14 : (mkHdr seqn ++ p).getD 14 0 = 0 := rfl
  have g15 : (mkHdr seqn ++ p).getD 15 0 = 0 := rfl
  have g16 : (mkHdr seqn ++ p).getD 16 0 = 0 := rfl
  have g17 : (mkHdr seqn ++ p).getD 17 0 = 0 := rfl
  have g18 : (mkHdr seqn ++ p).getD 18 0 = 0 := rfl
  have g19 : (mkHdr seqn ++ p).getD 19 0 = 0 := rfl
  have hb : be32 (seqn / 16777216 % 256) (seqn / 65536 % 256) (seqn / 256 % 256)
      (seqn % 256) = seqn := by
    simp only [be32]; omega
  have hsr : be16 80 24 >>> 12 = 5 := rfl
  simp only [decodeTCP, hlen, hd, hsr, g0, g1, g2, g3, g4, g5, g6, g7, g8, g9, g10, g11, g12, g13, g14, g15, g16, g17, g18, g19, hb]
  rw [if_neg (by omega)]
  norm_num [be16, be32]

/-- Processing a non-SYN PSH,ACK segment (a `mkHdr` header) that is
not a retransmission and carries payload: the relative seq is the
base-and-wrap normalization, the payload decode runs, and `last_seq`
advances to the segment's seq. -/
theorem processDecoded_mk (st : StreamState) (seqn : Nat) (payload : List Nat)
    (dp : StreamState × DPEvents) (sq : Int)
    (hsq : (seqn : Int) - st.seq_base + st.seq_wrap = sq)
    (hwrap : ¬(sq < st.seq_wrap))
    (hnr : ¬(sq < st.last_seq))
    (hp : 0 < payload.length)
    (hdp : decodePayload 1000 2049 24 0 st payload = dp) :
    processDecoded st ⟨1000, 2049, seqn, 0, 5, 20, 24, 0, 0, 0, none⟩ payload 0 =
      ({ dp.1 with last_seq := sq }, ⟨sq, false, dp.2⟩) := by
  have h24 : ((((24 : Nat) >>> 1) % 2 = 1)) = False := eq_false (by decide)
  simp only [processDecoded, synAdjust, normalizeSeq, h24, if_false]
  rw [hsq]
  rw [if_neg hwrap]
  rw [if_neg hnr]
  rw [hdp, if_pos hp]

theorem s2proc1 :
    processDecoded (initStream 1000) ⟨1000, 2049, 1000, 0, 5, 20, 24, 0, 0, 0, none⟩ s2p1 0 =
      (⟨s2p1, 0, 0, 0, 1000⟩, ⟨0, false, {}⟩) := by
  have h := processDecoded_mk (initStream 1000) 1000 s2p1 (⟨s2p1, 0, 0, 0, 1000⟩, {}) 0
    (by norm_num [initStream]) (by norm_num [initStream]) (by norm_num [initStream])
    (by rw [s2p1_length]; norm_num) (by rw [initStream]; exact s2step1)
  simpa using h

theorem s2proc2 :
    processDecoded ⟨s2p1, 0, 0, 0, 1000⟩ ⟨1000, 2049, 2204, 0, 5, 20, 24, 0, 0, 0, none⟩
      s2p2 0 = (⟨s2p1 ++ s2p2, 0, 1204, 0, 1000⟩, ⟨1204, false, {}⟩) := by
  have h := processDecoded_mk ⟨s2p1, 0, 0, 0, 1000⟩ 2204 s2p2
    (⟨s2p1 ++ s2p2, 0, 0, 0, 1000⟩, {}) 1204
    (by norm_num) (by norm_num) (by norm_num)
    (by rw [s2p2_length]; norm_num) s2step2
  simpa using h

theorem s2proc3 :
    processDecoded ⟨s2p1 ++ s2p2, 0, 1204, 0, 1000⟩
      ⟨1000, 2049, 3404, 0, 5, 20, 24, 0, 0, 0, none⟩ s2p3 0 =
      (⟨[], 0, 2404, 0, 1000⟩, ⟨2404, false, { rpc := some ⟨3000, 1, 0, true⟩ }⟩) := by
  have h := processDecoded_mk ⟨s2p1 ++ s2p2, 0, 1204, 0, 1000⟩ 3404 s2p3
    (⟨[], 0, 1204, 0, 1000⟩, { rpc := some ⟨3000, 1, 0, true⟩ }) 2404
    (by norm_num) (by norm_num) (by norm_num)
    (by rw [s2p3_length]; norm_num) s2step3
  simpa using h

theorem s2run1 :
    runStream [s2seg1] = .ok (some ⟨s2p1, 0, 0, 0, 1000⟩, [⟨0, false, {}⟩]) := by
  simp only [runStream, runStreamAux, s2seg1, decodeTCP_mkHdr 1000 (by norm_num),
    Option.getD_none, s2proc1]

theorem s2run2 :
    runStream [s2seg1, s2seg2] =
      .ok (some ⟨s2p1 ++ s2p2, 0, 1204, 0, 1000⟩, [⟨0, false, {}⟩, ⟨1204, false, {}⟩]) := by
  simp only [runStream, runStreamAux, s2seg1, s2seg2, decodeTCP_mkHdr 1000 (by norm_num),
    decodeTCP_mkHdr 2204 (by norm_num), Option.getD_none, Option.getD_some, s2proc1,
    s2proc2]

theorem s2run3 :
    runStream [s2seg1, s2seg2, s2seg3] =
      .ok (some ⟨[], 0, 2404, 0, 1000⟩,
        [⟨0, false, {}⟩, ⟨1204, false, {}⟩,
         ⟨2404, false, { rpc := some ⟨3000, 1, 0, true⟩ }⟩]) := by
  simp only [runStream, runStreamAux, s2seg1, s2seg2, s2seg3,
    decodeTCP_mkHdr 1000 (by norm_num), decodeTCP_mkHdr 2204 (by norm_num),
    decodeTCP_mkHdr 3404 (by norm_num), Option.getD_none, Option.getD_some,
    s2proc1, s2proc2, s2proc3]

/-- C5: with no capture truncation, when an RPC record-mark header
decodes but the available body bytes `ldata` fall short of the
declared `rpcsize`, the reassembler appends all remaining bytes to
`msfrag` and returns without attaching an RPC object; in particular a
3000-byte record body split 1200/1200/600 leaves `|msfrag| = 1204`
after segment 1 and `2404` after segment 2, and segment 3 emits
exactly one RPC with `msfrag` empty. -/
theorem c5_incomplete_record_and_s2 :
    (∀ (src dst raw : Nat) (st : StreamState) (payload : List Nat) (r : RpcObj),
      ¬(src = 53 ∨ dst = 53) → ¬(src = 88 ∨ dst = 88) →
      (st.frag_off = 0 ∨ st.msfrag ≠ []) →
      (st.msfrag ≠ [] → parseRPC payload = none) →
      payload ≠ [] →
      parseRPC (st.msfrag ++ payload) = some r →
      (st.msfrag.length : Int) + payload.length - 4 < (r.size : Int) →
      decodePayload src dst raw 0 st payload =
        ({ st with msfrag := st.msfrag ++ payload }, {})) ∧
    (finalMsfragLen [s2seg1] = some 1204 ∧
     finalMsfragLen [s2seg1, s2seg2] = some 2404 ∧
     finalMsfragLen [s2seg1, s2seg2, s2seg3] = some 0 ∧
     rpcFlags [s2seg1, s2seg2, s2seg3] = some [false, false, true]) := by
  refine ⟨fun src dst raw st payload r h1 h2 hfo hdir hpay hparse hinc =>
    incompleteRecord_step src dst raw st payload r h1 h2 hfo hdir hpay hparse hinc,
    ?_, ?_, ?_, ?_⟩
  · simp [finalMsfragLen, s2run1, s2p1_length]
  · simp [finalMsfragLen, s2run2, s2p1_length, s2p2_length]
  · simp [finalMsfragLen, s2run3]
  · simp [rpcFlags, s2run3]

/-- Witness for C5 on a 12-byte payload declaring a 16-byte record
body on a fresh stream. -/
theorem c5_incomplete_record_and_s2_witness :
    decodePayload 1000 2049 24 0 (initStream 7) [128, 0, 0, 16, 0, 0, 0, 1, 0, 0, 0, 0] =
      ({ initStream 7 with
          msfrag := (initStream 7).msfrag ++ [128, 0, 0, 16, 0, 0, 0, 1, 0, 0, 0, 0] },
        {}) :=
  c5_incomplete_record_and_s2.1 1000 2049 24 (initStream 7) _ ⟨16, 1, 0, true⟩
    (by decide) (by decide) (Or.inl rfl) (fun h => absurd rfl h) (by decide) (by decide)
    (by decide)

theorem readBlocks_rest_le (n : Nat) : ∀ bs : List Nat,
    ((readBlocks n bs).2.1).length ≤ bs.length := by
  induction n with
  | zero => intro bs; simp [readBlocks]
  | succ n ih =>
    intro bs
    match bs with
    | [] => simp [readBlocks]
    | [a] => simp [readBlocks]
    | [a, b] => simp [readBlocks]
    | [a, b, c] => simp [readBlocks]
    | [a, b, c, d] => simp [readBlocks]
    | [a, b, c, d, e] => simp [readBlocks]
    | [a, b, c, d, e, f] => simp [readBlocks]
    | [a, b, c, d, e, f, g] => simp [readBlocks]
    | a :: b :: c :: d :: e :: f :: g :: h :: bs =>
      rcases hrb : readBlocks n bs with ⟨bl, rest, ok⟩
      have h2 := ih bs
      rw [hrb] at h2
      simp at h2
      simp [readBlocks, hrb]
      omega

theorem parseOption_rest_le (k : Nat) (tl : List Nat) :
    (parseOption (k :: tl)).rest.length ≤ tl.length := by
  have hrb := readBlocks_rest_le
  simp only [parseOption]
  repeat' split
  all_goals simp_all [List.length_drop]
  all_goals first
    | omega
    | exact le_trans (hrb _ _) (Nat.le_succ _)

theorem parseOptionsAux_fuel (f1 : Nat) : ∀ (f2 : Nat) (bs : List Nat),
    bs.length < f1 → bs.length < f2 → parseOptionsAux f1 bs = parseOptionsAux f2 bs := by
  induction f1 with
  | zero => intro f2 bs h1 h2; omega
  | succ f1 ih =>
    intro f2 bs h1 h2
    match f2, bs with
    | 0, bs => omega
    | f2 + 1, [] => simp [parseOptionsAux]
    | f2 + 1, k :: tl =>
      have hr := parseOption_rest_le k tl
      simp only [parseOptionsAux]
      simp only [List.length_cons] at h1 h2
      split
      · rfl
      · rw [ih f2 (parseOption (k :: tl)).rest (by omega) (by omega)]
      · rw [ih f2 (parseOption (k :: tl)).rest (by omega) (by omega)]

theorem cleanOptsAux_fuel (f1 : Nat) : ∀ (f2 : Nat) (bs : List Nat),
    bs.length < f1 → bs.length < f2 → cleanOptsAux f1 bs = cleanOptsAux f2 bs := by
  induction f1 with
  | zero => intro f2 bs h1 h2; omega
  | succ f1 ih =>
    intro f2 bs h1 h2
    match f2, bs with
    | 0, bs => omega
    | f2 + 1, [] => simp [cleanOptsAux]
    | f2 + 1, k :: tl =>
      have hr := parseOption_rest_le k tl
      simp only [cleanOptsAux]
      simp only [List.length_cons] at h1 h2
      rw [ih f2 (parseOption (k :: tl)).rest (by omega) (by omega)]

theorem parseOptions_cons_pos (k : Nat) (tl : List Nat) (n : Nat)
    (hk : (parseOption (k :: tl)).opt.kind = some (n + 1)) :
    parseOptions (k :: tl) =
      (parseOption (k :: tl)).opt :: parseOptions (parseOption (k :: tl)).rest := by
  have hr := parseOption_rest_le k tl
  simp only [parseOptions, List.length_cons, parseOptionsAux, hk]
  congr 1
  exact parseOptionsAux_fuel _ _ _ (by omega) (by omega)

theorem parseOptions_cons_zero (k : Nat) (tl : List Nat)
    (hk : (parseOption (k :: tl)).opt.kind = some 0) :
    parseOptions (k :: tl) = [] := by
  simp only [parseOptions, List.length_cons, parseOptionsAux, hk]

theorem cleanOpts_cons (k : Nat) (tl : List Nat) :
    cleanOpts (k :: tl) =
      ((parseOption (k :: tl)).ok &&
        (match (parseOption (k :: tl)).opt.kind with
         | some n => decide (1 ≤ n)
         | none => false) &&
       cleanOpts (parseOption (k :: tl)).rest) := by
  have hr := parseOption_rest_le k tl
  simp only [cleanOpts, List.length_cons, cleanOptsAux]
  congr 1
  exact cleanOptsAux_fuel _ _ _ (by omega) (by omega)

theorem readBlocks_append (n : Nat) : ∀ (xs ys : List Nat),
    (readBlocks n xs).2.2 = true →
    readBlocks n (xs ++ ys) = ((readBlocks n xs).1, (readBlocks n xs).2.1 ++ ys, true) := by
  induction n with
  | zero => intro xs ys _; simp [readBlocks]
  | succ n ih =>
    intro xs ys h
    match xs with
    | [] => simp [readBlocks] at h
    | [a] => simp [readBlocks] at h
    | [a, b] => simp [readBlocks] at h
    | [a, b, c] => simp [readBlocks] at h
    | [a, b, c, d] => simp [readBlocks] at h
    | [a, b, c, d, e] => simp [readBlocks] at h
    | [a, b, c, d, e, f] => simp [readBlocks] at h
    | [a, b, c, d, e, f, g] => simp [readBlocks] at h
    | a :: b :: c :: d :: e :: f :: g :: h8 :: xs =>
      rcases hrb : readBlocks n xs with ⟨bl, rest, ok⟩
      rw [readBlocks, hrb] at h
      simp at h
      have h2 := ih xs ys (by rw [hrb, h])
      simp [readBlocks, hrb, h2, h]

theorem parseOption_append (xs ys : List Nat) (h : (parseOption xs).ok = true) :
    parseOption (xs ++ ys) =
      ⟨(parseOption xs).opt, (parseOption xs).rest ++ ys, true⟩ := by
  match xs with
  | [] => simp [parseOption] at h
  | k :: tl =>
    by_cases hk01 : k = 0 ∨ k = 1
    · simp [parseOption, hk01]
    · match tl with
      | [] => simp [parseOption, hk01] at h
      | len :: r2 =>
        by_cases hlen : len ≤ 2
        · simp [parseOption, hk01, hlen]
        · by_cases hk2 : k = 2
          · match r2 with
            | [] => simp [parseOption, hk01, hlen, hk2] at h
            | [a] => simp [parseOption, hk01, hlen, hk2] at h
            | a :: b :: r3 => simp [parseOption, hk01, hlen, hk2]
          · by_cases hk3 : k = 3
            · match r2 with
              | [] => simp [parseOption, hk01, hlen, hk2, hk3] at h
              | a :: r3 => simp [parseOption, hk01, hlen, hk2, hk3]
            · by_cases hk5 : k = 5
              · rcases hrb : readBlocks ((len - 2) / 8) r2 with ⟨bl, rest, ok⟩
                have hok : ok = true := by
                  simp [parseOption, hk01, hlen, hk2, hk3, hk5, hrb] at h
                  exact h
                subst hok
                have hra := readBlocks_append ((len - 2) / 8) r2 ys (by rw [hrb])
                rw [hrb] at hra
                simp [parseOption, hk01, hlen, hk2, hk3, hk5, hrb, hra]
              · by_cases hk8 : k = 8
                · match r2 with
                  | [] => simp [parseOption, hk01, hlen, hk2, hk3, hk5, hk8] at h
                  | [a] => simp [parseOption, hk01, hlen, hk2, hk3, hk5, hk8] at h
                  | [a, b] => simp [parseOption, hk01, hlen, hk2, hk3, hk5, hk8] at h
                  | [a, b, c] => simp [parseOption, hk01, hlen, hk2, hk3, hk5, hk8] at h
                  | [a, b, c, d] => simp [parseOption, hk01, hlen, hk2, hk3, hk5, hk8] at h
                  | [a, b, c, d, e] =>
                    simp [parseOption, hk01, hlen, hk2, hk3, hk5, hk8] at h
                  | [a, b, c, d, e, f] =>
                    simp [parseOption, hk01, hlen, hk2, hk3, hk5, hk8] at h
                  | [a, b, c, d, e, f, g] =>
                    simp [parseOption, hk01, hlen, hk2, hk3, hk5, hk8] at h
                  | a :: b :: c :: d :: e :: f :: g :: h8 :: r3 =>
                    simp [parseOption, hk01, hlen, hk2, hk3, hk5, hk8]
                · by_cases hd : len - 2 ≤ r2.length
                  · have ht : (r2 ++ ys).take (len - 2) = r2.take (len - 2) :=
                      List.take_append_of_le_length hd
                    have hdr : (r2 ++ ys).drop (len - 2) = r2.drop (len - 2) ++ ys :=
                      List.drop_append_of_le_length hd
                    have hd2 : len - 2 ≤ (r2 ++ ys).length := by
                      simp [List.length_append]; omega
                    simp [parseOption, hk01, hlen, hk2, hk3, hk5, hk8, hd, hd2, ht, hdr]
                    omega
                  · simp [parseOption, hk01, hlen, hk2, hk3, hk5, hk8, hd] at h

theorem parseOptions_append_bounded (N : Nat) : ∀ (good : List Nat), good.length ≤ N →
    cleanOpts good = true → ∀ tail,
    parseOptions (good ++ tail) = parseOptions good ++ parseOptions tail := by
  induction N with
  | zero =>
    intro good hN _ tail
    have hgood : good = [] := List.length_eq_zero.mp (Nat.le_zero.mp hN)
    subst hgood
    simp [parseOptions, parseOptionsAux]
  | succ N ih =>
    intro good hN hg tail
    match good with
    | [] => simp [parseOptions, parseOptionsAux]
    | k :: tl =>
      rw [cleanOpts_cons] at hg
      simp only [Bool.and_eq_true] at hg
      obtain ⟨⟨hok, hkd⟩, hcl⟩ := hg
      rcases hkind : (parseOption (k :: tl)).opt.kind with _ | m
      · rw [hkind] at hkd; simp at hkd
      · rw [hkind] at hkd
        simp only [decide_eq_true_eq] at hkd
        have hm : ∃ n, m = n + 1 := ⟨m - 1, by omega⟩
        obtain ⟨n, rfl⟩ := hm
        have hpa := parseOption_append (k :: tl) tail hok
        have hr := parseOption_rest_le k tl
        have hlcons : (k :: tl) ++ tail = k :: (tl ++ tail) := rfl
        have hkind2 : (parseOption (k :: (tl ++ tail))).opt.kind = some (n + 1) := by
          rw [← hlcons, hpa]; exact hkind
        rw [hlcons] at hpa ⊢
        rw [parseOptions_cons_pos _ _ _ hkind2, parseOptions_cons_pos _ _ _ hkind]
        rw [hpa]
        simp only []
        rw [ih (parseOption (k :: tl)).rest (by simp at hN; omega) hcl tail]
        simp

/-- Well-formed option-buffer prefixes parse independently of what
follows: the options of `good ++ tail` are those of `good` followed by
those of `tail`. -/
theorem parseOptions_append (good : List Nat) (hg : cleanOpts good = true)
    (tail : List Nat) :
    parseOptions (good ++ tail) = parseOptions good ++ parseOptions tail :=
  parseOptions_append_bounded good.length good le_rfl hg tail

theorem parseOptionsAux_kinds (fuel : Nat) : ∀ (bs : List Nat) (o : OptionObj),
    o ∈ parseOptionsAux fuel bs → ∃ k, o.kind = some k ∧ 1 ≤ k := by
  induction fuel with
  | zero => intro bs o h; simp [parseOptionsAux] at h
  | succ fuel ih =>
    intro bs o h
    match bs with
    | [] => simp [parseOptionsAux] at h
    | k :: tl =>
      simp only [parseOptionsAux] at h
      rcases hkind : (parseOption (k :: tl)).opt.kind with _ | m
      · rw [hkind] at h
        exact ih _ o h
      · rw [hkind] at h
        match m with
        | 0 => simp at h
        | m + 1 =>
          simp only [List.mem_cons] at h
          rcases h with rfl | h
          · exact ⟨m + 1, hkind, by omega⟩
          · exact ih _ o h

theorem readBlocks_fail_rest (n : Nat) : ∀ bs : List Nat,
    (readBlocks n bs).2.2 = false → (readBlocks n bs).2.1 = [] := by
  induction n with
  | zero => intro bs h; simp [readBlocks] at h
  | succ n ih =>
    intro bs h
    match bs with
    | [] => simp [readBlocks]
    | [a] => simp [readBlocks]
    | [a, b] => simp [readBlocks]
    | [a, b, c] => simp [readBlocks]
    | [a, b, c, d] => simp [readBlocks]
    | [a, b, c, d, e] => simp [readBlocks]
    | [a, b, c, d, e, f] => simp [readBlocks]
    | [a, b, c, d, e, f, g] => simp [readBlocks]
    | a :: b :: c :: d :: e :: f :: g :: h8 :: bs =>
      rcases hrb : readBlocks n bs with ⟨bl, rest, ok⟩
      rw [readBlocks, hrb] at h
      simp at h
      have h2 := ih bs
      rw [hrb] at h2
      simp at h2
      simp [readBlocks, hrb, h2 h]

/-- The head byte of a non-empty option buffer always becomes the
decoded option's kind. -/
theorem parseOption_cons_kind (k : Nat) (tl : List Nat) :
    (parseOption (k :: tl)).opt.kind = some k := by
  simp only [parseOption]
  repeat' split
  all_goals rfl

/-- A failed option decode exhausts the option buffer: the enclosing
loop terminates at the malformed boundary. -/
theorem parseOption_fail_rest : ∀ bs : List Nat,
    (parseOption bs).ok = false → (parseOption bs).rest = [] := by
  intro bs h
  match bs with
  | [] => rfl
  | k :: tl =>
    by_cases hk01 : k = 0 ∨ k = 1
    · simp [parseOption, hk01] at h
    · match tl with
      | [] => simp [parseOption, hk01]
      | len :: r2 =>
        by_cases hlen : len ≤ 2
        · simp [parseOption, hk01, hlen] at h
        · by_cases hk2 : k = 2
          · match r2 with
            | [] => simp [parseOption, hk01, hlen, hk2]
            | [a] => simp [parseOption, hk01, hlen, hk2]
            | a :: b :: r3 => simp [parseOption, hk01, hlen, hk2] at h
          · by_cases hk3 : k = 3
            · match r2 with
              | [] => simp [parseOption, hk01, hlen, hk2, hk3]
              | a :: r3 => simp [parseOption, hk01, hlen, hk2, hk3] at h
            · by_cases hk5 : k = 5
              · rcases hrb : readBlocks ((len - 2) / 8) r2 with ⟨bl, rest, ok⟩
                have h2 := readBlocks_fail_rest ((len - 2) / 8) r2
                rw [hrb] at h2
                simp at h2
                simp [parseOption, hk01, hlen, hk2, hk3, hk5, hrb] at h ⊢
                exact h2 h
              · by_cases hk8 : k = 8
                · match r2 with
                  | [] => simp [parseOption, hk01, hlen, hk2, hk3, hk5, hk8]
                  | [a] => simp [parseOption, hk01, hlen, hk2, hk3, hk5, hk8]
                  | [a, b] => simp [parseOption, hk01, hlen, hk2, hk3, hk5, hk8]
                  | [a, b, c] => simp [parseOption, hk01, hlen, hk2, hk3, hk5, hk8]
                  | [a, b, c, d] => simp [parseOption, hk01, hlen, hk2, hk3, hk5, hk8]
                  | [a, b, c, d, e] =>
                    simp [parseOption, hk01, hlen, hk2, hk3, hk5, hk8]
                  | [a, b, c, d, e, f] =>
                    simp [parseOption, hk01, hlen, hk2, hk3, hk5, hk8]
                  | [a, b, c, d, e, f, g] =>
                    simp [parseOption, hk01, hlen, hk2, hk3, hk5, hk8]
                  | a :: b :: c :: d :: e :: f :: g :: h8 :: r3 =>
                    simp [parseOption, hk01, hlen, hk2, hk3, hk5, hk8] at h
                · by_cases hd : len - 2 ≤ r2.length
                  · simp [parseOption, hk01, hlen, hk2, hk3, hk5, hk8, hd] at h
                  · simp [parseOption, hk01, hlen, hk2, hk3, hk5, hk8, hd]

/-- A malformed option is the last entry of the options list: it is
recorded with its kind and the fields read so far, and nothing is
parsed after it. -/
theorem parseOptions_fail_cons (k : Nat) (tl : List Nat)
    (h : (parseOption (k :: tl)).ok = false) :
    parseOptions (k :: tl) = [(parseOption (k :: tl)).opt] := by
  have hk := parseOption_cons_kind k tl
  have hk0 : k ≠ 0 := by rintro rfl; simp [parseOption] at h
  obtain ⟨m, rfl⟩ : ∃ m, k = m + 1 := ⟨k - 1, by omega⟩
  rw [parseOptions_cons_pos _ _ m hk, parseOption_fail_rest _ h]
  simp [parseOptions, parseOptionsAux]

/-- C7: a malformed (truncated) option terminates option parsing at
the malformed boundary — the failed read exhausts the option buffer,
the malformed option itself is recorded with the fields read so far,
and every option parsed before the boundary is retained — and no
option content ever fails the segment decode: `decodeTCP` succeeds on
every buffer meeting the header-size bounds, whatever the option
bytes hold. -/
theorem c7_malformed_option_terminates :
    (∀ good tail, cleanOpts good = true → tail ≠ [] →
      (parseOption tail).ok = false →
      parseOptions (good ++ tail) = parseOptions good ++ [(parseOption tail).opt]) ∧
    (∀ buf : List Nat, ¬ buf.length < 20 →
      4 * (be16 (buf.getD 12 0) (buf.getD 13 0) >>> 12) ≤ buf.length →
      ∃ hp, decodeTCP buf = .ok hp) := by
  constructor
  · intro good tail hg htne hfail
    cases tail with
    | nil => exact absurd rfl htne
    | cons k tl =>
      rw [parseOptions_append good hg, parseOptions_fail_cons k tl hfail]
  · intro buf h20 hhs
    rcases hd : decodeTCP buf with e | hp
    · cases e
      rcases (decodeTCP_error_iff buf).mp hd with h | h
      · exact absurd h h20
      · omega
    · exact ⟨hp, rfl⟩

/-- Witness for C7: a No-Op and an MSS option followed by a malformed
MSS option (kind 2, length 5, one body byte), and a 21-byte buffer
whose decode succeeds. -/
theorem c7_malformed_option_terminates_witness :
    parseOptions ([1, 2, 4, 18, 52] ++ [2, 5, 7]) =
      parseOptions [1, 2, 4, 18, 52] ++ [(parseOption [2, 5, 7]).opt] ∧
    ∃ hp, decodeTCP (mkHdr 5 ++ [9]) = .ok hp :=
  ⟨c7_malformed_option_terminates.1 [1, 2, 4, 18, 52] [2, 5, 7] (by decide) (by decide)
      (by decide),
   c7_malformed_option_terminates.2 (mkHdr 5 ++ [9]) (by decide) (by decide)⟩

/-- C9: the options list exists exactly when `header_size > 20`; every
recorded option has a read kind of at least 1 (kind-0 and unread kinds
are never appended); and an End-Of-Options byte terminates the loop
without being recorded. -/
theorem c9_options_kinds :
    (∀ (buf : List Nat) (h : TCPHdr) (rest : List Nat),
      decodeTCP buf = .ok (h, rest) → (h.options.isSome ↔ 20 < h.header_size)) ∧
    (∀ (bs : List Nat) (o : OptionObj), o ∈ parseOptions bs →
      ∃ k, o.kind = some k ∧ 1 ≤ k) ∧
    (∀ (good : List Nat), cleanOpts good = true → ∀ rest,
      parseOptions (good ++ 0 :: rest) = parseOptions good) := by
  refine ⟨?_, ?_, ?_⟩
  · intro buf h rest heq
    simp only [decodeTCP] at heq
    split_ifs at heq with h1 h2 h3 <;>
      first
        | (simp at heq; done)
        | (simp only [Except.ok.injEq, Prod.mk.injEq] at heq
           obtain ⟨rfl, -⟩ := heq
           simp_all [List.getD_eq_getElem?_getD])
  · intro bs o hmem
    exact parseOptionsAux_kinds _ bs o hmem
  · intro good hg rest
    rw [parseOptions_append good hg]
    have hz : parseOptions (0 :: rest) = [] :=
      parseOptions_cons_zero 0 rest (by simp [parseOption])
    rw [hz, List.append_nil]

/-- Witness for C9: a recorded MSS option has kind 2 ≥ 1; a kind-0
byte after a clean MSS option ends the list; a 20-byte header decode
has no options list. -/
theorem c9_options_kinds_witness :
    (∃ k, (⟨some 2, OptBody.mss 4660⟩ : OptionObj).kind = some k ∧ 1 ≤ k) ∧
    parseOptions ([2, 4, 18, 52] ++ 0 :: [9, 9]) = parseOptions [2, 4, 18, 52] ∧
    ((⟨1000, 2049, 5, 0, 5, 20, 24, 0, 0, 0, none⟩ : TCPHdr).options.isSome ↔
      20 < (⟨1000, 2049, 5, 0, 5, 20, 24, 0, 0, 0, none⟩ : TCPHdr).header_size) :=
  ⟨c9_options_kinds.2.1 [2, 4, 18, 52] _ (by decide),
   c9_options_kinds.2.2 [2, 4, 18, 52] (by decide) [9, 9],
   c9_options_kinds.1 (mkHdr 5 ++ []) _ [] (decodeTCP_mkHdr 5 (by norm_num) [])⟩
